import Mathlib

/-!
Verification model of the infra project-setup pipeline.

The definitions below are shallow embeddings of the Python sources:
`infra/project_setup/core.py`, `infra/project_setup/environment.py`,
`infra/project_setup/types.py` and `infra/providers/local/env.py`.
Python dictionaries are modelled as insertion-ordered association lists,
Python exceptions as `Except` values, and the external collaborators
(GitHub API, Docker, the operating system) as explicit oracle arguments.
-/

set_option maxHeartbeats 1000000

/-- Python dict assignment `d[k] = v` on an insertion-ordered association
list: when the key is present its value is replaced in place, otherwise the
pair is appended at the end. -/
def dictInsert {α β : Type} [DecidableEq α] (m : List (α × β)) (k : α) (v : β) :
    List (α × β) :=
  if m.any (fun p => decide (p.1 = k)) then
    m.map (fun p => if p.1 = k then (k, v) else p)
  else m ++ [(k, v)]

/-- Python key-membership test `k in d`. -/
def hasKey {α β : Type} [DecidableEq α] (m : List (α × β)) (k : α) : Bool :=
  m.any (fun p => decide (p.1 = k))

/-- Python `d.get(k)`: the value of the (unique) entry with the key, if any. -/
def lookupKey {α β : Type} [DecidableEq α] (m : List (α × β)) (k : α) :
    Option β :=
  (m.find? (fun p => decide (p.1 = k))).map Prod.snd

/-- One entry of the generated-secrets pass of `_setup_github_secrets`
(core.py lines 608-617): a secret generated during the run is queued for
publication when the workflows require it and it is not already present in
the remote repository; a generated secret whose name already exists remotely
is skipped, and a generated secret the workflows do not require is ignored. -/
def addGeneratedStep (required : List String) (existing : List String)
    (acc : List (String × String)) (p : String × String) :
    List (String × String) :=
  if required.contains p.1 then
    if existing.contains p.1 then acc else dictInsert acc p.1 p.2
  else acc

/-- One required-name step of the fallback loop of `_setup_github_secrets`
(core.py lines 619-639): a name already queued or already present remotely is
left alone; otherwise the external configuration is consulted (`Config.get`
yields `none` when the key is absent and may yield an empty string), a
non-empty value is queued for publication and anything else records the name
in the missing-secrets report. -/
def resolveMissingStep (existing : List String)
    (config : String → Option String)
    (st : List (String × String) × List String) (name : String) :
    List (String × String) × List String :=
  if hasKey st.1 name || existing.contains name then st
  else
    match config name with
    | some v =>
        if v = "" then (st.1, st.2 ++ [name]) else (dictInsert st.1 name v, st.2)
    | none => (st.1, st.2 ++ [name])

/-- Outcome of the secret-resolution engine: the final mapping handed to the
publish call `setup_cicd` and the missing-secrets report surfaced as an
end-of-run warning. -/
structure SecretsResolution where
  finalSecrets : List (String × String)
  missingSecrets : List String
deriving Repr, DecidableEq

/-- The resolution core of `_setup_github_secrets` (core.py lines 605-639):
first every secret generated during the run that the workflows require and
that is absent remotely is queued, then each required name still unresolved
is looked up in the external configuration, and required names with no
usable value anywhere are collected into the missing-secrets report. -/
def setupGithubSecretsResolve (required : List String)
    (generated : List (String × String)) (existing : List String)
    (config : String → Option String) : SecretsResolution :=
  let final1 := generated.foldl (addGeneratedStep required existing) []
  let st := required.foldl (resolveMissingStep existing config) (final1, [])
  ⟨st.1, st.2⟩

/-- The characters Python `str.splitlines` treats as line boundaries: LF, VT,
FF, CR, FS, GS, RS, NEL, LINE SEPARATOR and PARAGRAPH SEPARATOR. -/
def isLineBreak (c : Char) : Bool :=
  c = Char.ofNat 10 || c = Char.ofNat 11 || c = Char.ofNat 12 ||
  c = Char.ofNat 13 || c = Char.ofNat 28 || c = Char.ofNat 29 ||
  c = Char.ofNat 30 || c = Char.ofNat 133 || c = Char.ofNat 8232 ||
  c = Char.ofNat 8233

/-- The characters Python `str.strip` removes: space, the ASCII control
whitespace range, the line-boundary characters and the common Unicode
spaces. -/
def isPySpace (c : Char) : Bool :=
  c = ' ' || c = Char.ofNat 9 || isLineBreak c || c = Char.ofNat 31 ||
  c = Char.ofNat 160 || c = Char.ofNat 5760 ||
  (8192 ≤ c.toNat && c.toNat ≤ 8202) || c = Char.ofNat 8239 ||
  c = Char.ofNat 8287 || c = Char.ofNat 12288

/-- Python `str.strip()`: drop the whitespace run at each end. -/
def pyStrip (l : List Char) : List Char :=
  ((l.dropWhile isPySpace).reverse.dropWhile isPySpace).reverse

/-- Worker of the Python `str.splitlines` model: `acc` holds the reversed
characters of the line being assembled and `afterCR` records that the
previous character was a CR, so that an LF directly after it is part of the
same boundary. A line is emitted at each boundary; the pending segment at
the end of the input is emitted only when it is non-empty, so a boundary
ending the string produces no further empty line. -/
def splitlinesGo (acc : List Char) (afterCR : Bool) :
    List Char → List (List Char)
  | [] => if acc.isEmpty then [] else [acc.reverse]
  | c :: rest =>
    if afterCR && c = Char.ofNat 10 then splitlinesGo acc false rest
    else if c = Char.ofNat 13 then acc.reverse :: splitlinesGo [] true rest
    else if isLineBreak c then acc.reverse :: splitlinesGo [] false rest
    else splitlinesGo (c :: acc) false rest

/-- Python `str.splitlines`: the empty string yields no lines. -/
def splitlines (cs : List Char) : List (List Char) :=
  splitlinesGo [] false cs

/-- Processing of a single raw line by `ProjectEnv.read` (env.py lines
47-54): the line is stripped, blank lines and comment lines are skipped, a
line without an equals sign is skipped, and otherwise the text before the
first equals sign (stripped) is bound to the text after it (stripped). -/
def envReadLine (acc : List (List Char × List Char)) (rawLine : List Char) :
    List (List Char × List Char) :=
  let line := pyStrip rawLine
  if line.isEmpty then acc
  else if line.head? = some '#' then acc
  else if line.contains '=' then
    let key := line.takeWhile (fun c => decide (c ≠ '='))
    let value := (line.dropWhile (fun c => decide (c ≠ '='))).tail
    dictInsert acc (pyStrip key) (pyStrip value)
  else acc

/-- `ProjectEnv.read` (env.py lines 29-57) applied to the text of an existing
`.env` file: split into lines and fold each line into the dictionary. -/
def envReadContent (content : List Char) : List (List Char × List Char) :=
  (splitlines content).foldl envReadLine []

/-- Python `"\n".join(lines)`: the lines separated by single newlines. -/
def joinLines : List (List Char) → List Char
  | [] => []
  | [l] => l
  | l :: rest => l ++ Char.ofNat 10 :: joinLines rest

/-- `ProjectEnv._write` (env.py lines 173-193): one `KEY=value` line per
entry, joined with newlines, with a final trailing newline. -/
def envWriteContent (m : List (List Char × List Char)) : List Char :=
  joinLines (m.map (fun p => p.1 ++ '=' :: p.2)) ++ [Char.ofNat 10]

/-- A list of characters with no whitespace character at either end. -/
def noEdgeSpace (l : List Char) : Bool :=
  (match l.head? with | some c => !isPySpace c | none => true) &&
  (match l.getLast? with | some c => !isPySpace c | none => true)

/-- Keys covered by the round-trip property: non-empty, no equals sign, no
line-boundary character, no leading or trailing whitespace, and not starting
with the comment marker. -/
def goodEnvKey (k : List Char) : Bool :=
  !k.isEmpty && !k.contains '=' && k.all (fun c => !isLineBreak c) &&
  noEdgeSpace k && !(k.head? == some '#')

/-- Values covered by the round-trip property: no line-boundary character
and no leading or trailing whitespace. -/
def goodEnvValue (v : List Char) : Bool :=
  v.all (fun c => !isLineBreak c) && noEdgeSpace v

/-- Outcome of `get_repository_secrets` as observed by
`_initialize_setup_context`: either the fetched list of secret names or a
raised exception. -/
inductive SecretsFetchResult
  | fetched (names : List String)
  | fetchFailed
deriving Repr, DecidableEq

/-- The value `_initialize_setup_context` (core.py lines 152-168) stores in
`ctx.existing_github_secrets` (an `Optional[List[str]]` that starts out
`None`): the fetched names on success, and the empty list when the fetch
raises, after recording a warning; the function returns normally in both
cases. -/
def initContextExistingSecrets : SecretsFetchResult → Option (List String)
  | SecretsFetchResult.fetched names => some names
  | SecretsFetchResult.fetchFailed => some []

/-- Python exceptions that can cross the boundaries modelled here. -/
inductive PyExc
  | configError (msg : String)
  | localGitError (msg : String)
  | setupError (msg : String)
  | unboundLocalError
  | calledProcessError (cmd : String)
  | otherError (msg : String)
deriving Repr, DecidableEq

/-- The message text `str(e)` of a modelled exception. -/
def pyExcMessage : PyExc → String
  | PyExc.configError m => m
  | PyExc.localGitError m => m
  | PyExc.setupError m => m
  | PyExc.unboundLocalError => "local variable referenced before assignment"
  | PyExc.calledProcessError c => c
  | PyExc.otherError m => m

/-- The three `except` clauses of `setup_project` (core.py lines 317-328):
every exception escaping the step sequence is wrapped in a `SetupError`
whose message names the tier of the underlying cause. -/
def wrapSetupError : PyExc → PyExc
  | PyExc.configError m => PyExc.setupError ("Configuration error: " ++ m)
  | PyExc.localGitError m => PyExc.setupError ("Git or template error: " ++ m)
  | e => PyExc.setupError ("Unexpected error setting up project: " ++ pyExcMessage e)

/-- The result dictionary returned by `_finalize_project_setup`. -/
structure SetupResult where
  projectName : String
  repositoryUrl : String
  projectDirectory : String
  databaseName : String
deriving Repr, DecidableEq

/-- Oracle for one run of `setup_project`: the outcome of each pipeline step
in source order. `initContext` is the call to `_initialize_setup_context`;
the steps before it run while the local variable `setup_ctx` is still
unbound. -/
structure StepOutcomes where
  createRepo : Except PyExc Unit
  checkDirectory : Except PyExc Unit
  createLocalFiles : Except PyExc Unit
  initContext : Except PyExc Unit
  envSetup : Except PyExc Unit
  githubSecretsStep : Except PyExc Unit
  cicdVariables : Except PyExc Unit
  pushStep : Except PyExc Unit
  containerStep : Except PyExc Unit
  saveEnvStep : Except PyExc Unit

/-- Sequential execution of a list of step outcomes: the first raised
exception aborts the sequence. -/
def seqSteps : List (Except PyExc Unit) → Except PyExc Unit
  | [] => Except.ok ()
  | Except.error e :: _ => Except.error e
  | Except.ok _ :: rest => seqSteps rest

/-- The `try` body of `setup_project` (core.py lines 251-315): the step
result together with a flag recording whether execution reached the
assignment of the local variable `setup_ctx` (line 272). -/
def setupProjectBody (s : StepOutcomes) (res : SetupResult) :
    Except PyExc SetupResult × Bool :=
  match seqSteps [s.createRepo, s.checkDirectory, s.createLocalFiles] with
  | Except.error e => (Except.error e, false)
  | Except.ok _ =>
    match s.initContext with
    | Except.error e => (Except.error e, false)
    | Except.ok _ =>
      match seqSteps [s.envSetup, s.githubSecretsStep, s.cicdVariables,
          s.pushStep, s.containerStep, s.saveEnvStep] with
      | Except.error e => (Except.error e, true)
      | Except.ok _ => (Except.ok res, true)

/-- `setup_project` (core.py lines 251-333): the `except` clauses wrap any
escaping exception in a `SetupError`, and then the `finally` block runs a
debug log whose f-string argument reads `setup_ctx.existing_github_secrets`.
When the run failed before `setup_ctx` was assigned, evaluating that
argument raises `UnboundLocalError` inside the `finally` block, and an
exception raised in a `finally` block replaces the exception in flight. -/
def setupProject (s : StepOutcomes) (res : SetupResult) :
    Except PyExc SetupResult :=
  match setupProjectBody s res with
  | (Except.ok v, _) => Except.ok v
  | (Except.error e, true) => Except.error (wrapSetupError e)
  | (Except.error _, false) => Except.error PyExc.unboundLocalError

/-- State of the local git remote configuration as `_push_to_remote`
mutates it. -/
structure GitRemoteState where
  originUrl : Option String
deriving Repr, DecidableEq

/-- The authenticated URL built by `_push_to_remote` (core.py line 506):
`repo_url.replace` with the credentials spliced after the scheme. -/
def authUrl (repoUrl username token : String) : String :=
  repoUrl.replace "https://" ("https://" ++ username ++ ":" ++ token ++ "@")

/-- `_push_to_remote` (core.py lines 472-551): without a token the step
raises; otherwise the origin remote is pointed at the credential-embedding
URL, the push runs (`check=True`, so a failure raises), and after a
successful push the origin URL is scrubbed back to the credential-free
`repo_url` by another `check=True` subprocess call with no surrounding
`try`, so a scrub failure also raises. A raised error carries the remote
state left behind by the already-performed mutations. -/
def pushToRemote (repoUrl username : String) (token : Option String)
    (st : GitRemoteState) (pushOk scrubOk : Bool) :
    Except (PyExc × GitRemoteState) GitRemoteState :=
  match token with
  | none =>
      Except.error (PyExc.localGitError "GitHub token is required for Git operations", st)
  | some tok =>
      let st1 : GitRemoteState := ⟨some (authUrl repoUrl username tok)⟩
      if pushOk then
        if scrubOk then Except.ok ⟨some repoUrl⟩
        else Except.error (PyExc.calledProcessError "git remote set-url origin", st1)
      else Except.error (PyExc.calledProcessError "git push -u origin main", st1)

/-- Calls to external collaborators the environment-setup step can make. -/
inductive SetupCall
  | templateHookSetup
  | setupDatabaseCall
deriving Repr, DecidableEq

/-- The states of the optional per-template hook file as
`_setup_project_specific_environment` can observe them. -/
inductive TemplateHookState
  | absent
  | missingSetupFunction
  | importFailure
  | raisesError
  | returnsName (dbName : String)
deriving Repr, DecidableEq

/-- `_setup_project_specific_environment` (core.py lines 47-100): the
default database name is `ctx.db_name or ctx.name`; when a
`template_setup.py` with a `setup` function exists it is invoked and its
return value becomes the final name; in every other case — including the
absence of the hook file — the function only logs and returns the default,
performing no database provisioning of its own. -/
def setupProjectSpecificEnvironment (dbName : Option String) (name : String)
    (hook : TemplateHookState) : String × List SetupCall :=
  let defaultName := dbName.getD name
  match hook with
  | TemplateHookState.absent => (defaultName, [])
  | TemplateHookState.missingSetupFunction => (defaultName, [])
  | TemplateHookState.importFailure => (defaultName, [])
  | TemplateHookState.raisesError => (defaultName, [])
  | TemplateHookState.returnsName n => (n, [SetupCall.templateHookSetup])

/-- The retry budget of the port search in `_setup_docker_database`
(environment.py line 312, `max_attempts = 50`). -/
def maxPortAttempts : Nat := 50

/-- The `while` loop of the port search (environment.py lines 310-315):
`randSeq n` is the n-th value drawn by `random.randint(32000, 65000)` and
`isAvail` is the bind probe. The loop keeps drawing while the current port
is unavailable and fewer than `max_attempts` retries were made. The fuel
argument only bounds the recursion; with fuel `maxPortAttempts` it can never
run out before the `attempts < max_attempts` guard fails. -/
def findPortLoop (randSeq : Nat → Nat) (isAvail : Nat → Bool) :
    Nat → Nat → Nat → Nat × Nat
  | 0, port, attempts => (port, attempts)
  | fuel + 1, port, attempts =>
    if isAvail port = false ∧ attempts < maxPortAttempts then
      findPortLoop randSeq isAvail fuel (randSeq (attempts + 1)) (attempts + 1)
    else (port, attempts)

/-- The complete port selection of `_setup_docker_database` (environment.py
lines 310-319): run the retry loop from the initial draw, then raise
(`none`) whenever the loop left `attempts` at the maximum — the check the
source performs after the loop, regardless of the availability of the last
drawn port. -/
def findAvailablePort (randSeq : Nat → Nat) (isAvail : Nat → Bool) :
    Option Nat :=
  let r := findPortLoop randSeq isAvail maxPortAttempts (randSeq 0) 0
  if maxPortAttempts ≤ r.2 then none else some r.1

/-- The externally visible operations of the Docker database setup. -/
inductive DockerAction
  | credentialGeneration
  | containerCheck
  | containerRemove
  | containerRun (port : Nat)
deriving Repr, DecidableEq

/-- The context state `setup_database` and its helpers read and mutate:
the CI secrets accumulated in `ctx.github_secrets`, the local variables in
`ctx.project_env`, and a trace of the Docker operations performed. -/
structure DbState where
  githubSecrets : List (String × String)
  projectEnv : List (String × String)
  dockerActions : List DockerAction
deriving Repr, DecidableEq

/-- Oracle for the external collaborators of `_setup_docker_database`. -/
structure DockerOracles where
  dockerInstalled : Bool
  password : String
  randSeq : Nat → Nat
  portAvail : Nat → Bool
  containerExists : Bool
  removeOk : Bool
  runOk : Bool

/-- The connection string built by `_setup_docker_database`
(environment.py line 351). -/
def dockerDatabaseUrl (username password : String) (port : Nat)
    (dbName : String) : String :=
  "postgresql://" ++ username ++ ":" ++ password ++ "@127.0.0.1:" ++
    toString port ++ "/" ++ dbName

/-- `_setup_docker_database` (environment.py lines 261-370): when the
canonical `DATABASE_URL` key is already in `ctx.project_env` the function
returns at once, touching nothing; otherwise it checks the Docker
dependency, generates credentials, searches for a free port, removes a
pre-existing container of the same name, starts the container and records
the connection string in `ctx.project_env`. A raised error carries the
state left behind by the mutations already performed. -/
def setupDockerDatabase (name : String) (dbNameOpt : Option String)
    (o : DockerOracles) (st : DbState) : Except (DbState × PyExc) DbState :=
  if hasKey st.projectEnv "DATABASE_URL" then Except.ok st
  else if o.dockerInstalled = false then
    Except.error (st, PyExc.otherError "Docker is required for local database setup but was not found.")
  else
    let dbName := dbNameOpt.getD name
    let username := "user_" ++ name.replace "-" "_"
    let st1 := { st with dockerActions :=
      st.dockerActions ++ [DockerAction.credentialGeneration] }
    match findAvailablePort o.randSeq o.portAvail with
    | none =>
        Except.error (st1, PyExc.otherError "Could not find available port for Docker database")
    | some port =>
        let st2 := { st1 with dockerActions := st1.dockerActions ++
          [DockerAction.containerCheck] }
        if o.containerExists then
          if o.removeOk then
            let st3 := { st2 with dockerActions := st2.dockerActions ++
              [DockerAction.containerRemove] }
            if o.runOk then
              Except.ok { st3 with
                projectEnv := dictInsert st3.projectEnv "DATABASE_URL"
                  (dockerDatabaseUrl username o.password port dbName),
                dockerActions := st3.dockerActions ++ [DockerAction.containerRun port] }
            else
              Except.error (st3, PyExc.otherError "Docker setup failed")
          else Except.error (st2, PyExc.otherError "Docker setup failed")
        else
          if o.runOk then
            Except.ok { st2 with
              projectEnv := dictInsert st2.projectEnv "DATABASE_URL"
                (dockerDatabaseUrl username o.password port dbName),
              dockerActions := st2.dockerActions ++ [DockerAction.containerRun port] }
          else
            Except.error (st2, PyExc.otherError "Docker setup failed")

/-- `_setup_yandex_cloud_database` (environment.py lines 170-258): skip when
`DATABASE_URL` is already a remote secret or was generated earlier in the
run (also when the pre-fetched secret list is unavailable); otherwise call
the cloud provisioner (`ycCreate` models the result of `create_yc_db`,
`some url` being a returned `database_url`) and record the connection
string in `ctx.github_secrets`. -/
def setupYandexCloudDatabase (name : String) (dbNameOpt : Option String)
    (existing : Option (List String)) (ycCreate : Except PyExc (Option String))
    (st : DbState) : Except (DbState × PyExc) DbState :=
  let skipByCtx := hasKey st.githubSecrets "DATABASE_URL"
  let skip :=
    match existing with
    | none => skipByCtx
    | some ex => ex.contains "DATABASE_URL" || skipByCtx
  if skip then Except.ok st
  else
    match ycCreate with
    | Except.error e => Except.error (st, e)
    | Except.ok (some url) =>
        Except.ok { st with
          githubSecrets := dictInsert st.githubSecrets "DATABASE_URL" url }
    | Except.ok none =>
        Except.error (st, PyExc.otherError
          ("Failed to retrieve database_url for " ++ (dbNameOpt.getD name)))

/-- `setup_database` (environment.py lines 373-405): compute the final
database name `ctx.db_name or ctx.name`, run the cloud variant when
`use_yandex_cloud` is set and then the Docker variant when
`use_local_docker` is set inside one `try` — an exception from either
helper is caught, logged and swallowed (so it also skips the remaining
helper) — and return the final name unconditionally. -/
def setupDatabase (useYandexCloud useLocalDocker : Bool) (name : String)
    (dbNameOpt : Option String) (existing : Option (List String))
    (ycCreate : Except PyExc (Option String)) (o : DockerOracles)
    (st : DbState) : String × DbState :=
  let finalName := dbNameOpt.getD name
  let afterYc : Except (DbState × PyExc) DbState :=
    if useYandexCloud then
      setupYandexCloudDatabase name dbNameOpt existing ycCreate st
    else Except.ok st
  let finalSt :=
    match afterYc with
    | Except.error (st1, _) => st1
    | Except.ok st1 =>
      if useLocalDocker then
        match setupDockerDatabase name dbNameOpt o st1 with
        | Except.error (st2, _) => st2
        | Except.ok st2 => st2
      else st1
  (finalName, finalSt)

/-- Concrete external-configuration oracle used by the witness instances:
only the key `API_KEY` is configured. -/
def cConfig : String → Option String :=
  fun n => if n = "API_KEY" then some "abc123" else none

/-- Concrete Docker oracle used by the witness instances. -/
def cDockerOracles : DockerOracles :=
  ⟨true, "pw", fun _ => 32000, fun _ => true, false, true, true⟩

/-- Concrete context state with a `DATABASE_URL` already present in the
project environment, used by the witness instances. -/
def cDbState : DbState :=
  ⟨[], [("DATABASE_URL", "postgresql://u:p@127.0.0.1:5432/db")], []⟩

/-- Concrete environment mapping used by the round-trip witness. -/
def cEnvMap : List (List Char × List Char) :=
  [(['D', 'B'], ['u', 'r', 'l', '1']), (['K'], []), (['A'], ['x', '=', 'y'])]

/-- Concrete port-draw sequence used by the port-search counterexample: the
n-th draw is the port 32000 + n, all inside the probed range. -/
def cRandSeq (n : Nat) : Nat := 32000 + n

/-- Concrete availability oracle used by the port-search counterexample:
only port 32050 — the 50th retry draw of `cRandSeq` — is free. -/
def cAvail (p : Nat) : Bool := p == 32050

/-- Concrete step outcomes where the GitHub repository creation of step 1
fails and every later step would succeed. -/
def cFailingStep1 : StepOutcomes :=
  ⟨Except.error (PyExc.localGitError "GitHub API error"), Except.ok (),
   Except.ok (), Except.ok (), Except.ok (), Except.ok (), Except.ok (),
   Except.ok (), Except.ok (), Except.ok ()⟩

/-- Concrete step outcomes where only the push of step 8 fails. -/
def cFailingPush : StepOutcomes :=
  ⟨Except.ok (), Except.ok (), Except.ok (), Except.ok (), Except.ok (),
   Except.ok (), Except.ok (),
   Except.error (PyExc.calledProcessError "git push -u origin main"),
   Except.ok (), Except.ok ()⟩

/-- Concrete result record for the pipeline-failure evaluations. -/
def cSetupResult : SetupResult :=
  ⟨"demo", "https://github.com/user/demo", "/projects/demo", "demo"⟩

/-! Helper lemmas about the association-list dictionary model. -/

theorem hasKey_eq_true_iff {α β : Type} [DecidableEq α] {m : List (α × β)}
    {k : α} : hasKey m k = true ↔ ∃ p ∈ m, p.1 = k := by
  simp [hasKey]

theorem hasKey_eq_false_iff {α β : Type} [DecidableEq α] {m : List (α × β)}
    {k : α} : hasKey m k = false ↔ ∀ p ∈ m, p.1 ≠ k := by
  simp [hasKey]

theorem mem_dictInsert_elim {α β : Type} [DecidableEq α] {m : List (α × β)}
    {k : α} {v : β} {p : α × β} (h : p ∈ dictInsert m k v) :
    p ∈ m ∨ p = (k, v) := by
  unfold dictInsert at h
  split at h
  · obtain ⟨q, hq, hfq⟩ := List.mem_map.1 h
    split at hfq
    · right; exact hfq.symm
    · left; exact hfq ▸ hq
  · rcases List.mem_append.1 h with h1 | h1
    · left; exact h1
    · right; simpa using h1

theorem dictInsert_of_hasKey_false {α β : Type} [DecidableEq α]
    {m : List (α × β)} {k : α} (v : β) (h : hasKey m k = false) :
    dictInsert m k v = m ++ [(k, v)] := by
  unfold dictInsert
  rw [show (m.any fun p => decide (p.1 = k)) = hasKey m k from rfl, h]
  simp

theorem hasKey_append {α β : Type} [DecidableEq α] (m m2 : List (α × β))
    (k : α) : hasKey (m ++ m2) k = (hasKey m k || hasKey m2 k) := by
  simp [hasKey]

theorem hasKey_dictInsert {α β : Type} [DecidableEq α] (m : List (α × β))
    (k k2 : α) (v : β) :
    hasKey (dictInsert m k v) k2 = (hasKey m k2 || decide (k2 = k)) := by
  rw [Bool.eq_iff_iff]
  simp only [Bool.or_eq_true, decide_eq_true_eq, hasKey_eq_true_iff]
  unfold dictInsert
  split
  case isTrue h =>
    simp only [List.mem_map]
    constructor
    · rintro ⟨p, ⟨q, hq, rfl⟩, hk⟩
      by_cases hqk : q.1 = k
      · simp only [hqk, if_pos] at hk
        exact Or.inr hk.symm
      · simp only [if_neg hqk] at hk
        exact Or.inl ⟨q, hq, hk⟩
    · rintro (⟨q, hq, hk⟩ | hk2)
      · by_cases hqk : q.1 = k
        · refine ⟨(k, v), ⟨q, hq, by simp [hqk]⟩, ?_⟩
          have hk2 : k = k2 := hqk ▸ hk
          simpa using hk2
        · exact ⟨q, ⟨q, hq, by simp [hqk]⟩, hk⟩
      · obtain ⟨q, hq, hqk⟩ :=
          hasKey_eq_true_iff.1 (show hasKey m k = true from h)
        exact ⟨(k, v), ⟨q, hq, by simp [hqk]⟩, hk2.symm⟩
  case isFalse h =>
    simp only [List.mem_append, List.mem_singleton]
    constructor
    · rintro ⟨p, hp | hp, hk⟩
      · exact Or.inl ⟨p, hp, hk⟩
      · subst hp; exact Or.inr hk.symm
    · rintro (⟨q, hq, hk⟩ | hk2)
      · exact ⟨q, Or.inl hq, hk⟩
      · exact ⟨(k, v), Or.inr rfl, hk2.symm⟩

theorem lookupKey_eq_none_of_hasKey_false {α β : Type} [DecidableEq α]
    {m : List (α × β)} {k : α} (h : hasKey m k = false) :
    lookupKey m k = none := by
  have h2 := hasKey_eq_false_iff.1 h
  unfold lookupKey
  rw [List.find?_eq_none.2 (by intro p hp; simpa using h2 p hp)]
  rfl

theorem lookupKey_append_some {α β : Type} [DecidableEq α]
    {m m2 : List (α × β)} {k : α} {v : β} (h : lookupKey m k = some v) :
    lookupKey (m ++ m2) k = some v := by
  unfold lookupKey at h ⊢
  obtain ⟨p, hp, hv⟩ : ∃ p, m.find? (fun p => decide (p.1 = k)) = some p ∧ p.2 = v := by
    cases hf : m.find? (fun p => decide (p.1 = k)) with
    | none => rw [hf] at h; simp at h
    | some p => rw [hf] at h; exact ⟨p, rfl, by simpa using h⟩
  rw [List.find?_append, hp]
  simpa using hv

theorem lookupKey_append_of_hasKey_false {α β : Type} [DecidableEq α]
    {m m2 : List (α × β)} {k : α} (h : hasKey m k = false) :
    lookupKey (m ++ m2) k = lookupKey m2 k := by
  have h2 := hasKey_eq_false_iff.1 h
  unfold lookupKey
  rw [List.find?_append, List.find?_eq_none.2 (by intro p hp; simpa using h2 p hp)]
  rfl

theorem lookupKey_append_singleton {α β : Type} [DecidableEq α]
    {m : List (α × β)} {k : α} (v : β) (h : hasKey m k = false) :
    lookupKey (m ++ [(k, v)]) k = some v := by
  rw [lookupKey_append_of_hasKey_false h]
  simp [lookupKey]

theorem lookupKey_of_mem_nodup {α β : Type} [DecidableEq α]
    {m : List (α × β)} {k : α} {v : β} (hmem : (k, v) ∈ m)
    (hnd : (m.map Prod.fst).Nodup) : lookupKey m k = some v := by
  induction m with
  | nil => simp at hmem
  | cons q rest ih =>
    simp only [List.map_cons, List.nodup_cons] at hnd
    rcases List.mem_cons.1 hmem with rfl | hmem2
    · simp [lookupKey]
    · have hqk : q.1 ≠ k := by
        intro hk
        exact hnd.1 (hk ▸ (List.mem_map.2 ⟨(k, v), hmem2, rfl⟩))
      unfold lookupKey
      rw [List.find?_cons_of_neg _ (by simpa using hqk)]
      exact ih hmem2 hnd.2

/-! Lemmas about the secret-resolution engine. -/

theorem addGeneratedStep_cases (required existing : List String)
    (acc : List (String × String)) (q : String × String) :
    addGeneratedStep required existing acc q = acc ∨
      (required.contains q.1 = true ∧ existing.contains q.1 = false ∧
        addGeneratedStep required existing acc q = dictInsert acc q.1 q.2) := by
  unfold addGeneratedStep
  cases hr : required.contains q.1 with
  | false => exact Or.inl (by simp)
  | true =>
    cases he : existing.contains q.1 with
    | false => exact Or.inr ⟨rfl, rfl, by simp⟩
    | true => exact Or.inl (by simp)

theorem resolveMissingStep_cases (existing : List String)
    (config : String → Option String)
    (st : List (String × String) × List String) (n : String) :
    ((hasKey st.1 n || existing.contains n) = true ∧
        resolveMissingStep existing config st n = st) ∨
      (hasKey st.1 n = false ∧ existing.contains n = false ∧
        ((∃ v, config n = some v ∧ v ≠ "" ∧
            resolveMissingStep existing config st n = (st.1 ++ [(n, v)], st.2)) ∨
          ((config n = none ∨ config n = some "") ∧
            resolveMissingStep existing config st n = (st.1, st.2 ++ [n])))) := by
  cases hguard : (hasKey st.1 n || existing.contains n) with
  | true =>
    refine Or.inl ⟨rfl, ?_⟩
    unfold resolveMissingStep
    rw [hguard]
    simp
  | false =>
    have hk : hasKey st.1 n = false := by
      cases h : hasKey st.1 n
      · rfl
      · rw [h] at hguard; simp at hguard
    have hex : existing.contains n = false := by
      cases h : existing.contains n
      · rfl
      · rw [h] at hguard; simp at hguard
    have hstep : resolveMissingStep existing config st n =
        (match config n with
          | some v =>
              if v = "" then (st.1, st.2 ++ [n]) else (dictInsert st.1 n v, st.2)
          | none => (st.1, st.2 ++ [n])) := by
      unfold resolveMissingStep
      rw [hguard]
      simp
    refine Or.inr ⟨hk, hex, ?_⟩
    cases hc : config n with
    | none =>
      refine Or.inr ⟨Or.inl rfl, ?_⟩
      rw [hstep, hc]
    | some v =>
      by_cases hv : v = ""
      · subst hv
        refine Or.inr ⟨Or.inr rfl, ?_⟩
        rw [hstep, hc]
        simp
      · refine Or.inl ⟨v, rfl, hv, ?_⟩
        rw [hstep, hc]
        simp only [if_neg hv]
        rw [dictInsert_of_hasKey_false _ hk]

theorem resolveMissing_fold_extends (existing : List String)
    (config : String → Option String) (req : List String) :
    ∀ st : List (String × String) × List String, ∃ ef em,
      req.foldl (resolveMissingStep existing config) st =
        (st.1 ++ ef, st.2 ++ em) := by
  induction req with
  | nil => intro st; exact ⟨[], [], by simp⟩
  | cons n rest ih =>
    intro st
    simp only [List.foldl_cons]
    rcases resolveMissingStep_cases existing config st n with ⟨_, hst⟩ |
      ⟨hk, hex, ⟨v, _, _, hst⟩ | ⟨_, hst⟩⟩ <;> rw [hst]
    · exact ih st
    · obtain ⟨ef, em, h⟩ := ih (st.1 ++ [(n, v)], st.2)
      exact ⟨(n, v) :: ef, em, by simpa [List.append_assoc] using h⟩
    · obtain ⟨ef, em, h⟩ := ih (st.1, st.2 ++ [n])
      exact ⟨ef, n :: em, by simpa [List.append_assoc] using h⟩

theorem resolveMissing_fold_keys_not_existing (existing : List String)
    (config : String → Option String) (req : List String) :
    ∀ st, (∀ p ∈ st.1, existing.contains p.1 = false) →
      ∀ p ∈ (req.foldl (resolveMissingStep existing config) st).1,
        existing.contains p.1 = false := by
  induction req with
  | nil => intro st h p hp; exact h p hp
  | cons n rest ih =>
    intro st h p hp
    simp only [List.foldl_cons] at hp
    rcases resolveMissingStep_cases existing config st n with ⟨_, hst⟩ |
      ⟨hk, hex, ⟨v, _, _, hst⟩ | ⟨_, hst⟩⟩ <;> rw [hst] at hp
    · exact ih st h p hp
    · refine ih _ ?_ p hp
      intro r hr
      rcases List.mem_append.1 hr with h1 | h1
      · exact h r h1
      · have : r = (n, v) := by simpa using h1
        subst this
        exact hex
    · exact ih (st.1, st.2 ++ [n]) h p hp

theorem resolveMissing_fold_lookup_some (existing : List String)
    (config : String → Option String) {name v : String} (req : List String) :
    ∀ st, name ∈ req → hasKey st.1 name = false →
      existing.contains name = false → config name = some v → v ≠ "" →
      lookupKey (req.foldl (resolveMissingStep existing config) st).1 name =
        some v := by
  induction req with
  | nil => intro st hmem; simp at hmem
  | cons n rest ih =>
    intro st hmem hkey hex hcfg hv
    simp only [List.foldl_cons]
    by_cases hn : n = name
    · subst hn
      rcases resolveMissingStep_cases existing config st n with ⟨hg, _⟩ |
        ⟨hk, _, ⟨w, hcw, hvw, hst⟩ | ⟨hbad, _⟩⟩
      · rw [hkey, hex] at hg; simp at hg
      · rw [hcfg] at hcw
        injection hcw with hw
        subst hw
        rw [hst]
        obtain ⟨ef, em, hfold⟩ :=
          resolveMissing_fold_extends existing config rest (st.1 ++ [(n, v)], st.2)
        rw [hfold]
        exact lookupKey_append_some (lookupKey_append_singleton v hkey)
      · rcases hbad with hb | hb
        · rw [hcfg] at hb; exact absurd hb (by simp)
        · rw [hcfg] at hb
          injection hb with hb2
          exact absurd hb2 hv
    · have hmem2 : name ∈ rest := by
        rcases List.mem_cons.1 hmem with h1 | h1
        · exact absurd h1 (fun hh => hn hh.symm)
        · exact h1
      have hkey2 : hasKey (resolveMissingStep existing config st n).1 name = false := by
        rcases resolveMissingStep_cases existing config st n with ⟨_, hst⟩ |
          ⟨hk, _, ⟨w, _, _, hst⟩ | ⟨_, hst⟩⟩ <;> rw [hst]
        · exact hkey
        · rw [hasKey_append, hkey]
          simp [hasKey, hn]
        · exact hkey
      exact ih _ hmem2 hkey2 hex hcfg hv

theorem resolveMissing_fold_config_irrelevant (existing : List String)
    (config config2 : String → Option String) {name : String}
    (req : List String) :
    ∀ st, (hasKey st.1 name || existing.contains name) = true →
      (∀ m, m ≠ name → config2 m = config m) →
      req.foldl (resolveMissingStep existing config2) st =
        req.foldl (resolveMissingStep existing config) st := by
  induction req with
  | nil => intro st _ _; rfl
  | cons n rest ih =>
    intro st hguard hagree
    simp only [List.foldl_cons]
    by_cases hn : n = name
    · subst hn
      have hskip2 : resolveMissingStep existing config2 st n = st := by
        unfold resolveMissingStep
        rw [hguard]
        simp
      have hskip : resolveMissingStep existing config st n = st := by
        unfold resolveMissingStep
        rw [hguard]
        simp
      rw [hskip2, hskip]
      exact ih st hguard hagree
    · have hstep : resolveMissingStep existing config2 st n =
          resolveMissingStep existing config st n := by
        unfold resolveMissingStep
        rw [hagree n hn]
      rw [hstep]
      have hguard2 : (hasKey (resolveMissingStep existing config st n).1 name ||
          existing.contains name) = true := by
        rcases resolveMissingStep_cases existing config st n with ⟨_, hst⟩ |
          ⟨hk, _, ⟨w, _, _, hst⟩ | ⟨_, hst⟩⟩ <;> rw [hst]
        · exact hguard
        · cases hor : existing.contains name
          · rw [hor] at hguard
            simp only [Bool.or_false] at hguard
            rw [hasKey_append, hguard]
            simp
          · simp
        · exact hguard
      exact ih _ hguard2 hagree

theorem resolveMissing_fold_no_insert (existing : List String)
    (config : String → Option String) {name : String} (req : List String) :
    ∀ st, hasKey st.1 name = false →
      (config name = none ∨ config name = some "") →
      hasKey (req.foldl (resolveMissingStep existing config) st).1 name =
        false := by
  induction req with
  | nil => intro st h _; exact h
  | cons n rest ih =>
    intro st hkey hbadcfg
    simp only [List.foldl_cons]
    rcases resolveMissingStep_cases existing config st n with ⟨_, hst⟩ |
      ⟨hk, hex, ⟨v, hcv, hvv, hst⟩ | ⟨_, hst⟩⟩ <;> rw [hst]
    · exact ih st hkey hbadcfg
    · refine ih _ ?_ hbadcfg
      rw [hasKey_append, hkey]
      have hn : n ≠ name := by
        intro hEq
        subst hEq
        rcases hbadcfg with hb | hb
        · rw [hcv] at hb; exact absurd hb (by simp)
        · rw [hcv] at hb; injection hb with hb2; exact absurd hb2 hvv
      simp [hasKey, hn]
    · exact ih _ hkey hbadcfg

theorem resolveMissing_fold_missing_mem (existing : List String)
    (config : String → Option String) {name : String} (req : List String) :
    ∀ st, name ∈ req → hasKey st.1 name = false →
      existing.contains name = false →
      (config name = none ∨ config name = some "") →
      name ∈ (req.foldl (resolveMissingStep existing config) st).2 := by
  induction req with
  | nil => intro st hmem; simp at hmem
  | cons n rest ih =>
    intro st hmem hkey hex hbadcfg
    simp only [List.foldl_cons]
    by_cases hn : n = name
    · subst hn
      have hst : resolveMissingStep existing config st n = (st.1, st.2 ++ [n]) := by
        rcases resolveMissingStep_cases existing config st n with ⟨hg, _⟩ |
          ⟨hk, _, ⟨w, hcw, hvw, _⟩ | ⟨_, hst⟩⟩
        · rw [hkey, hex] at hg; simp at hg
        · rcases hbadcfg with hb | hb
          · rw [hcw] at hb; exact absurd hb (by simp)
          · rw [hcw] at hb; injection hb with hb2; exact absurd hb2 hvw
        · exact hst
      rw [hst]
      obtain ⟨ef, em, hfold⟩ :=
        resolveMissing_fold_extends existing config rest (st.1, st.2 ++ [n])
      rw [hfold]
      simp
    · have hmem2 : name ∈ rest := by
        rcases List.mem_cons.1 hmem with h1 | h1
        · exact absurd h1 (fun hh => hn hh.symm)
        · exact h1
      have hkey2 : hasKey (resolveMissingStep existing config st n).1 name = false := by
        rcases resolveMissingStep_cases existing config st n with ⟨_, hst⟩ |
          ⟨hk, _, ⟨w, _, _, hst⟩ | ⟨_, hst⟩⟩ <;> rw [hst]
        · exact hkey
        · rw [hasKey_append, hkey]
          simp [hasKey, hn]
        · exact hkey
      exact ih _ hmem2 hkey2 hex hbadcfg

theorem addGenerated_fold_keys_not_existing (required existing : List String)
    (gen : List (String × String)) :
    ∀ acc, (∀ p ∈ acc, existing.contains p.1 = false) →
      ∀ p ∈ gen.foldl (addGeneratedStep required existing) acc,
        existing.contains p.1 = false := by
  induction gen with
  | nil => intro acc hacc p hp; exact hacc p hp
  | cons q rest ih =>
    intro acc hacc p hp
    simp only [List.foldl_cons] at hp
    rcases addGeneratedStep_cases required existing acc q with hst | ⟨hr, he, hst⟩ <;>
      rw [hst] at hp
    · exact ih acc hacc p hp
    · refine ih _ ?_ p hp
      intro r hr2
      rcases mem_dictInsert_elim hr2 with h1 | h1
      · exact hacc r h1
      · subst h1; exact he

theorem addGenerated_fold_hasKey_false (required existing : List String)
    {name : String} (gen : List (String × String)) :
    ∀ acc, hasKey acc name = false → (∀ p ∈ gen, p.1 ≠ name) →
      hasKey (gen.foldl (addGeneratedStep required existing) acc) name =
        false := by
  induction gen with
  | nil => intro acc h _; exact h
  | cons q rest ih =>
    intro acc hacc hfresh
    simp only [List.foldl_cons]
    have hrest : ∀ p ∈ rest, p.1 ≠ name := fun p hp =>
      hfresh p (List.mem_cons_of_mem q hp)
    rcases addGeneratedStep_cases required existing acc q with hst | ⟨hr, he, hst⟩ <;>
      rw [hst]
    · exact ih acc hacc hrest
    · refine ih _ ?_ hrest
      rw [hasKey_dictInsert, hacc]
      have hq : q.1 ≠ name := hfresh q (List.mem_cons_self q rest)
      simp only [Bool.false_or]
      exact decide_eq_false (fun hh => hq hh.symm)

theorem addGenerated_fold_filter (required existing : List String)
    (gen : List (String × String)) :
    (gen.map Prod.fst).Nodup →
    ∀ acc, (∀ p ∈ gen, hasKey acc p.1 = false) →
      gen.foldl (addGeneratedStep required existing) acc =
        acc ++ gen.filter
          (fun p => required.contains p.1 && !existing.contains p.1) := by
  induction gen with
  | nil => intro _ acc _; simp
  | cons q rest ih =>
    intro hnd acc hfresh
    simp only [List.foldl_cons, List.filter_cons]
    have hq : hasKey acc q.1 = false := hfresh q (List.mem_cons_self q rest)
    simp only [List.map_cons, List.nodup_cons] at hnd
    have hstep : addGeneratedStep required existing acc q =
        if (required.contains q.1 && !existing.contains q.1) = true then
          acc ++ [q] else acc := by
      unfold addGeneratedStep
      cases hr : required.contains q.1 with
      | false => simp
      | true =>
        cases he : existing.contains q.1 with
        | false => simp [dictInsert_of_hasKey_false _ hq]
        | true => simp
    by_cases hcond : (required.contains q.1 && !existing.contains q.1) = true
    · rw [hstep, if_pos hcond, if_pos hcond]
      have hfresh2 : ∀ p ∈ rest, hasKey (acc ++ [q]) p.1 = false := by
        intro p hp
        rw [hasKey_append, hfresh p (List.mem_cons_of_mem q hp)]
        have hpq : q.1 ≠ p.1 := fun hEq => hnd.1 (hEq ▸ List.mem_map.2 ⟨p, hp, rfl⟩)
        simp only [Bool.false_or, hasKey, List.any_cons, List.any_nil, Bool.or_false]
        exact decide_eq_false hpq
      rw [ih hnd.2 (acc ++ [q]) hfresh2]
      simp [List.append_assoc]
    · rw [hstep, if_neg hcond, if_neg hcond]
      exact ih hnd.2 acc (fun p hp => hfresh p (List.mem_cons_of_mem q hp))

theorem resolveMissing_fold_congr (existing : List String)
    (config config2 : String → Option String) (req : List String)
    (hagree : ∀ n ∈ req, config2 n = config n) :
    ∀ st, req.foldl (resolveMissingStep existing config2) st =
      req.foldl (resolveMissingStep existing config) st := by
  induction req with
  | nil => intro st; rfl
  | cons n rest ih =>
    intro st
    simp only [List.foldl_cons]
    have hstep : resolveMissingStep existing config2 st n =
        resolveMissingStep existing config st n := by
      unfold resolveMissingStep
      rw [hagree n (List.mem_cons_self n rest)]
    rw [hstep]
    exact ih (fun m hm => hagree m (List.mem_cons_of_mem n hm))
      (resolveMissingStep existing config st n)

/-- Claim C1: a required secret name that is present in the pre-fetched
remote secret list is never part of the final mapping handed to the publish
call, whatever the generated secrets and the external configuration hold. -/
theorem existing_secret_never_republished (required : List String)
    (generated : List (String × String)) (existing : List String)
    (config : String → Option String) (name : String)
    (_hreq : name ∈ required) (hex : name ∈ existing) :
    lookupKey (setupGithubSecretsResolve required generated existing
      config).finalSecrets name = none := by
  have hcont : existing.contains name = true := by simpa using hex
  simp only [setupGithubSecretsResolve]
  have hfinal1 : ∀ p ∈ generated.foldl (addGeneratedStep required existing) [],
      existing.contains p.1 = false :=
    addGenerated_fold_keys_not_existing required existing generated []
      (by intro p hp; simp at hp)
  have hfinal : ∀ p ∈ (required.foldl (resolveMissingStep existing config)
      (generated.foldl (addGeneratedStep required existing) [], [])).1,
      existing.contains p.1 = false :=
    resolveMissing_fold_keys_not_existing existing config required _ hfinal1
  refine lookupKey_eq_none_of_hasKey_false ?_
  cases hk : hasKey (required.foldl (resolveMissingStep existing config)
      (generated.foldl (addGeneratedStep required existing) [], [])).1 name with
  | false => rfl
  | true =>
    obtain ⟨p, hp, hpk⟩ := hasKey_eq_true_iff.1 hk
    have h2 := hfinal p hp
    rw [hpk] at h2
    rw [h2] at hcont
    exact hcont.symm

/-- Claim C2: for a required name absent from the remote secret list, a
value generated during the run is published exactly as generated, whatever
the external configuration holds for that name; the configuration is used
only when the name is also absent from the generated secrets, and then its
non-empty value is published; when the name is among the generated secrets
the configuration entry for it is never consulted (the resolution result is
unchanged under any reassignment of that entry). -/
theorem generated_secret_precedence (required : List String)
    (generated : List (String × String)) (existing : List String)
    (config : String → Option String) (name : String)
    (hreq : name ∈ required) (hex : name ∉ existing)
    (hnd : (generated.map Prod.fst).Nodup) :
    (∀ v, (name, v) ∈ generated →
      lookupKey (setupGithubSecretsResolve required generated existing
        config).finalSecrets name = some v) ∧
    (hasKey generated name = false → ∀ v, config name = some v → v ≠ "" →
      lookupKey (setupGithubSecretsResolve required generated existing
        config).finalSecrets name = some v) ∧
    (hasKey generated name = true → ∀ config2 : String → Option String,
      (∀ m, m ≠ name → config2 m = config m) →
      setupGithubSecretsResolve required generated existing config2 =
        setupGithubSecretsResolve required generated existing config) := by
  have hcont : existing.contains name = false := by simpa using hex
  have hcontr : required.contains name = true := by simpa using hreq
  have hfreshnil : ∀ p ∈ generated, hasKey ([] : List (String × String)) p.1 = false := by
    intro p _; rfl
  have hfilter := addGenerated_fold_filter required existing generated hnd [] hfreshnil
  rw [List.nil_append] at hfilter
  refine ⟨?_, ?_, ?_⟩
  · intro v hmem
    simp only [setupGithubSecretsResolve]
    have hmemf : (name, v) ∈ generated.filter
        (fun p => required.contains p.1 && !existing.contains p.1) := by
      refine List.mem_filter.2 ⟨hmem, ?_⟩
      simp only [Bool.and_eq_true, Bool.not_eq_true']
      exact ⟨hcontr, hcont⟩
    have hndf : ((generated.filter
        (fun p => required.contains p.1 && !existing.contains p.1)).map
          Prod.fst).Nodup :=
      ((List.filter_sublist generated).map Prod.fst).nodup hnd
    have hlook1 : lookupKey (generated.foldl
        (addGeneratedStep required existing) []) name = some v := by
      rw [hfilter]
      exact lookupKey_of_mem_nodup hmemf hndf
    obtain ⟨ef, em, hfold⟩ := resolveMissing_fold_extends existing config
      required (generated.foldl (addGeneratedStep required existing) [], [])
    rw [hfold]
    exact lookupKey_append_some hlook1
  · intro hgen v hcfg hv
    simp only [setupGithubSecretsResolve]
    have hkeys : ∀ p ∈ generated, p.1 ≠ name := by
      intro p hp hEq
      rw [hasKey_eq_false_iff] at hgen
      exact hgen p hp hEq
    have hk1 : hasKey (generated.foldl
        (addGeneratedStep required existing) []) name = false :=
      addGenerated_fold_hasKey_false required existing generated [] rfl hkeys
    exact resolveMissing_fold_lookup_some existing config required _ hreq hk1
      hcont hcfg hv
  · intro hgen config2 hagree
    obtain ⟨p, hp, hpk⟩ := hasKey_eq_true_iff.1 hgen
    have hmemf : p ∈ generated.filter
        (fun p => required.contains p.1 && !existing.contains p.1) := by
      refine List.mem_filter.2 ⟨hp, ?_⟩
      rw [hpk]
      simp only [Bool.and_eq_true, Bool.not_eq_true']
      exact ⟨hcontr, hcont⟩
    have hk1 : hasKey (generated.foldl
        (addGeneratedStep required existing) []) name = true := by
      rw [hfilter]
      exact hasKey_eq_true_iff.2 ⟨p, hmemf, hpk⟩
    simp only [setupGithubSecretsResolve]
    have hguard : (hasKey (generated.foldl
        (addGeneratedStep required existing) [], ([] : List String)).1 name ||
        existing.contains name) = true := by
      simp only [hk1, Bool.true_or]
    rw [resolveMissing_fold_config_irrelevant existing config config2 required
      _ hguard hagree]

/-- Claim C3: a required name that is absent from the remote secret list,
absent from the generated secrets, and whose configuration lookup yields
nothing or an empty value, is not part of the final mapping handed to the
publish call (so nothing, in particular no empty value, is published for
it) and is recorded in the missing-secrets report; the resolution function
is total, so the run continues. -/
theorem missing_secret_reported (required : List String)
    (generated : List (String × String)) (existing : List String)
    (config : String → Option String) (name : String)
    (hreq : name ∈ required) (hex : name ∉ existing)
    (hgen : hasKey generated name = false)
    (hcfg : config name = none ∨ config name = some "") :
    lookupKey (setupGithubSecretsResolve required generated existing
        config).finalSecrets name = none ∧
      name ∈ (setupGithubSecretsResolve required generated existing
        config).missingSecrets := by
  have hcont : existing.contains name = false := by simpa using hex
  have hkeys : ∀ p ∈ generated, p.1 ≠ name := by
    intro p hp hEq
    rw [hasKey_eq_false_iff] at hgen
    exact hgen p hp hEq
  have hk1 : hasKey (generated.foldl
      (addGeneratedStep required existing) []) name = false :=
    addGenerated_fold_hasKey_false required existing generated [] rfl hkeys
  constructor
  · simp only [setupGithubSecretsResolve]
    exact lookupKey_eq_none_of_hasKey_false
      (resolveMissing_fold_no_insert existing config required _ hk1 hcfg)
  · simp only [setupGithubSecretsResolve]
    exact resolveMissing_fold_missing_mem existing config required _ hreq hk1
      hcont hcfg

/-- Witness for C1 at a concrete instance. -/
theorem existing_secret_never_republished_witness :
    lookupKey (setupGithubSecretsResolve ["API_KEY"] [("API_KEY", "gen")]
      ["API_KEY"] cConfig).finalSecrets "API_KEY" = none :=
  existing_secret_never_republished ["API_KEY"] [("API_KEY", "gen")]
    ["API_KEY"] cConfig "API_KEY" (by decide) (by decide)

/-- Witness for C2 at a concrete instance: the generated value wins even
though the configuration holds a value for the other required name. -/
theorem generated_secret_precedence_witness :
    lookupKey (setupGithubSecretsResolve ["DATABASE_URL", "API_KEY"]
      [("DATABASE_URL", "postgres-url")] [] cConfig).finalSecrets
      "DATABASE_URL" = some "postgres-url" :=
  (generated_secret_precedence ["DATABASE_URL", "API_KEY"]
    [("DATABASE_URL", "postgres-url")] [] cConfig "DATABASE_URL"
    (by decide) (by decide) (by decide)).1 "postgres-url" (by decide)

/-- Witness for C3 at a concrete instance: a name configured nowhere is
reported missing and not published. -/
theorem missing_secret_reported_witness :
    lookupKey (setupGithubSecretsResolve ["SENTRY_DSN"] [] [] cConfig).finalSecrets
        "SENTRY_DSN" = none ∧
      "SENTRY_DSN" ∈ (setupGithubSecretsResolve ["SENTRY_DSN"] [] []
        cConfig).missingSecrets :=
  missing_secret_reported ["SENTRY_DSN"] [] [] cConfig "SENTRY_DSN"
    (by decide) (by decide) (by decide) (Or.inl (by decide))

/-- Counterexample to claim C4: the context state after a failed secret
fetch is exactly the context state after a successful fetch that returned
zero secrets — the two cases are not internally distinguishable. -/
theorem fetchFailed_state_equals_zero_secrets_state :
    initContextExistingSecrets SecretsFetchResult.fetchFailed =
      initContextExistingSecrets (SecretsFetchResult.fetched []) := rfl

/-- Claim C4 as amended: a failed fetch does not abort the run — the
initialization step always returns a populated (non-`None`) secret list —
but it stores the empty list, the very state a successful zero-secret fetch
produces, so the failure is recorded only in the warning log, not in the
context. -/
theorem initContextExistingSecrets_amended :
    (∀ r, initContextExistingSecrets r ≠ none) ∧
      initContextExistingSecrets SecretsFetchResult.fetchFailed = some [] ∧
      initContextExistingSecrets (SecretsFetchResult.fetched []) = some [] := by
  refine ⟨?_, rfl, rfl⟩
  intro r
  cases r <;> simp [initContextExistingSecrets]

/-- Claim C5, evaluated at the failing input: when repository creation
(step 1) raises, `setup_project` surfaces `UnboundLocalError` from the
`finally` block — not the documented `SetupError` — because the debug log
there reads the still-unbound `setup_ctx`; a push failure (step 8), raised
after `setup_ctx` is bound, is wrapped correctly. -/
theorem setupProject_step1_failure_unbound :
    setupProject cFailingStep1 cSetupResult =
        Except.error PyExc.unboundLocalError ∧
      setupProject cFailingPush cSetupResult =
        Except.error (PyExc.setupError
          "Unexpected error setting up project: git push -u origin main") := by
  constructor <;> rfl

/-- Counterexample to claim C6: a failed scrub of the remote URL after a
successful push raises (the `git remote set-url` call runs with
`check=True` and no surrounding `try`), so it does fail the run. -/
theorem pushToRemote_scrub_failure_raises :
    pushToRemote "https://github.com/u/r.git" "u" (some "tok") ⟨none⟩
        true false =
      Except.error (PyExc.calledProcessError "git remote set-url origin",
        ⟨some (authUrl "https://github.com/u/r.git" "u" "tok")⟩) := rfl

/-- Claim C6 as amended: after a successful push the remote URL is scrubbed
back to the credential-free repository URL, but a failure of the scrub
itself raises and so fails the run (it is not merely logged). -/
theorem pushToRemote_scrub_behavior (repoUrl username tok : String)
    (st : GitRemoteState) :
    pushToRemote repoUrl username (some tok) st true true =
        Except.ok ⟨some repoUrl⟩ ∧
      pushToRemote repoUrl username (some tok) st true false =
        Except.error (PyExc.calledProcessError "git remote set-url origin",
          ⟨some (authUrl repoUrl username tok)⟩) := by
  constructor <;> rfl

/-- Counterexample to claim C7: with no `template_setup.py` present the
environment-setup step performs no call at all — in particular no database
provisioning — and merely returns the default database name. -/
theorem noHook_performs_no_database_call :
    setupProjectSpecificEnvironment none "demo" TemplateHookState.absent =
        ("demo", []) ∧
      SetupCall.setupDatabaseCall ∉
        (setupProjectSpecificEnvironment none "demo"
          TemplateHookState.absent).2 := by
  constructor
  · rfl
  · simp [setupProjectSpecificEnvironment]

/-- Claim C7 as amended: when the materialized project contains no
recognized hook file the orchestrator performs no database provisioning in
this step; it only returns the default database name (the requested name if
given, else the project name). -/
theorem setupProjectSpecificEnvironment_absent (dbName : Option String)
    (name : String) :
    setupProjectSpecificEnvironment dbName name TemplateHookState.absent =
      (dbName.getD name, []) := rfl

/-- Claim C8: when the project environment already holds the canonical
`DATABASE_URL` key, local Docker provisioning returns at once with the
state untouched — no credential, port or container operation is recorded —
and `setup_database` (invoked for the local variant) returns the requested
database name, defaulting to the project name; invoking it again on the
same state is therefore a no-op. -/
theorem setupDatabase_local_idempotent (name : String)
    (dbNameOpt : Option String) (existing : Option (List String))
    (ycCreate : Except PyExc (Option String)) (o : DockerOracles)
    (st : DbState) (h : hasKey st.projectEnv "DATABASE_URL" = true) :
    setupDockerDatabase name dbNameOpt o st = Except.ok st ∧
      setupDatabase false true name dbNameOpt existing ycCreate o st =
        (dbNameOpt.getD name, st) := by
  have hdock : setupDockerDatabase name dbNameOpt o st = Except.ok st := by
    unfold setupDockerDatabase
    rw [if_pos h]
  refine ⟨hdock, ?_⟩
  unfold setupDatabase
  simp [hdock]

/-- Witness for C8 at a concrete instance. -/
theorem setupDatabase_local_idempotent_witness :
    hasKey cDbState.projectEnv "DATABASE_URL" = true ∧
      setupDatabase false true "demo" none none (Except.ok none)
        cDockerOracles cDbState = ("demo", cDbState) :=
  ⟨by decide,
    (setupDatabase_local_idempotent "demo" none none (Except.ok none)
      cDockerOracles cDbState (by decide)).2⟩

theorem findPortLoop_spec (r : Nat → Nat) (a : Nat → Bool) :
    ∀ fuel attempts, attempts + fuel = maxPortAttempts →
      (maxPortAttempts ≤ (findPortLoop r a fuel (r attempts) attempts).2 ↔
        ∀ k, attempts ≤ k → k < maxPortAttempts → a (r k) = false) ∧
      ((findPortLoop r a fuel (r attempts) attempts).2 < maxPortAttempts →
        a (findPortLoop r a fuel (r attempts) attempts).1 = true) := by
  intro fuel
  induction fuel with
  | zero =>
    intro attempts hsum
    have heq : attempts = maxPortAttempts := by omega
    subst heq
    unfold findPortLoop
    constructor
    · constructor
      · intro _ k hk1 hk2; omega
      · intro _; exact le_refl _
    · intro hlt; omega
  | succ fuel ih =>
    intro attempts hsum
    have hlt : attempts < maxPortAttempts := by omega
    cases hav : a (r attempts) with
    | true =>
      have hloop : findPortLoop r a (fuel + 1) (r attempts) attempts =
          (r attempts, attempts) := by
        unfold findPortLoop
        rw [if_neg (by simp [hav])]
      rw [hloop]
      constructor
      · constructor
        · intro h50; omega
        · intro hall
          have := hall attempts (le_refl _) hlt
          rw [hav] at this
          exact absurd this (by simp)
      · intro _; exact hav
    | false =>
      have hloop : findPortLoop r a (fuel + 1) (r attempts) attempts =
          findPortLoop r a fuel (r (attempts + 1)) (attempts + 1) := by
        unfold findPortLoop
        rw [if_pos ⟨hav, hlt⟩]
        cases fuel <;> rfl
      rw [hloop]
      obtain ⟨ih1, ih2⟩ := ih (attempts + 1) (by omega)
      constructor
      · rw [ih1]
        constructor
        · intro hall k hk1 hk2
          rcases Nat.eq_or_lt_of_le hk1 with heq | hk
          · rw [← heq]; exact hav
          · exact hall k hk hk2
        · intro hall k hk1 hk2
          exact hall k (Nat.le_of_succ_le hk1) hk2
      · exact ih2

/-- Claim C9 as amended: the port search raises exactly when the initial
draw and the first 49 retried draws are all unavailable — the availability
probe of the 50th retried draw is evaluated by the loop guard but its
result is discarded by the `attempts >= max_attempts` check after the loop,
so the search can fail even though its last probed port was free; whenever
it does return a port, that port was probed available. -/
theorem findAvailablePort_characterization (r : Nat → Nat) (a : Nat → Bool) :
    (findAvailablePort r a = none ↔
        ∀ k, k < maxPortAttempts → a (r k) = false) ∧
      (∀ p, findAvailablePort r a = some p → a p = true) := by
  obtain ⟨h1, h2⟩ := findPortLoop_spec r a maxPortAttempts 0 (by omega)
  unfold findAvailablePort
  constructor
  · constructor
    · intro hnone k hk
      by_cases hc : maxPortAttempts ≤
          (findPortLoop r a maxPortAttempts (r 0) 0).2
      · exact h1.1 hc k (Nat.zero_le k) hk
      · rw [if_neg hc] at hnone
        exact absurd hnone (by simp)
    · intro hall
      have hc : maxPortAttempts ≤
          (findPortLoop r a maxPortAttempts (r 0) 0).2 :=
        h1.2 (fun k _ hk => hall k hk)
      rw [if_pos hc]
  · intro p hp
    by_cases hc : maxPortAttempts ≤ (findPortLoop r a maxPortAttempts (r 0) 0).2
    · rw [if_pos hc] at hp
      exact absurd hp (by simp)
    · rw [if_neg hc] at hp
      have hp2 : (findPortLoop r a maxPortAttempts (r 0) 0).1 = p := by
        injection hp
      rw [← hp2]
      exact h2 (by omega)

/-- Counterexample to claim C9 as stated: with draws 32000, 32001, ... and
only port 32050 free, the 50th retried draw is probed and available, yet
the search still raises a port-allocation failure. -/
theorem findAvailablePort_misses_last_probe :
    findAvailablePort cRandSeq cAvail = none ∧
      cAvail (cRandSeq 50) = true := by
  constructor
  · decide
  · decide

/-- Witness for C9: the characterization applied at the concrete oracles,
with its hypothesis discharged by evaluation. -/
theorem findAvailablePort_characterization_witness :
    findAvailablePort cRandSeq cAvail = none :=
  ((findAvailablePort_characterization cRandSeq cAvail).1).mpr (by decide)

/-! Lemmas about the environment-file round trip. -/

theorem splitlinesGo_lf (acc rest : List Char) :
    splitlinesGo acc false (Char.ofNat 10 :: rest) =
      acc.reverse :: splitlinesGo [] false rest := rfl

theorem splitlinesGo_other (acc rest : List Char) (c : Char)
    (hc : isLineBreak c = false) :
    splitlinesGo acc false (c :: rest) = splitlinesGo (c :: acc) false rest := by
  have hcr : ¬(c = Char.ofNat 13) := by
    intro h
    rw [h] at hc
    exact absurd hc (by decide)
  unfold splitlinesGo
  rw [if_neg (by simp), if_neg hcr, if_neg (by simp [hc])]
  cases rest <;> rfl

theorem splitlinesGo_line (line : List Char)
    (hline : ∀ c ∈ line, isLineBreak c = false) :
    ∀ acc rest, splitlinesGo acc false (line ++ Char.ofNat 10 :: rest) =
      (acc.reverse ++ line) :: splitlinesGo [] false rest := by
  induction line with
  | nil =>
    intro acc rest
    simp only [List.nil_append]
    rw [splitlinesGo_lf]
    simp
  | cons c cs ih =>
    intro acc rest
    have hc : isLineBreak c = false := hline c (List.mem_cons_self c cs)
    have hcs : ∀ d ∈ cs, isLineBreak d = false := fun d hd =>
      hline d (List.mem_cons_of_mem c hd)
    simp only [List.cons_append]
    rw [splitlinesGo_other _ _ c hc, ih hcs (c :: acc) rest]
    simp

theorem splitlines_envWrite (m : List (List Char × List Char)) (hm : m ≠ [])
    (hent : ∀ p ∈ m, (∀ c ∈ p.1, isLineBreak c = false) ∧
      (∀ c ∈ p.2, isLineBreak c = false)) :
    splitlines (envWriteContent m) =
      m.map (fun p => p.1 ++ '=' :: p.2) := by
  induction m with
  | nil => exact absurd rfl hm
  | cons p rest ih =>
    have hp := hent p (List.mem_cons_self p rest)
    have hline : ∀ c ∈ p.1 ++ '=' :: p.2, isLineBreak c = false := by
      intro c hc
      rcases List.mem_append.1 hc with h | h
      · exact hp.1 c h
      · rcases List.mem_cons.1 h with h2 | h2
        · rw [h2]; decide
        · exact hp.2 c h2
    cases rest with
    | nil =>
      have hcontent : envWriteContent [p] =
          (p.1 ++ '=' :: p.2) ++ Char.ofNat 10 :: [] := rfl
      rw [hcontent]
      unfold splitlines
      rw [splitlinesGo_line _ hline [] []]
      simp [splitlinesGo]
    | cons q rest2 =>
      have hcontent : envWriteContent (p :: q :: rest2) =
          (p.1 ++ '=' :: p.2) ++ Char.ofNat 10 :: envWriteContent (q :: rest2) := by
        unfold envWriteContent
        simp only [List.map_cons]
        rw [show joinLines ((p.1 ++ '=' :: p.2) :: (q.1 ++ '=' :: q.2) ::
          rest2.map (fun r => r.1 ++ '=' :: r.2)) = (p.1 ++ '=' :: p.2) ++
          Char.ofNat 10 :: joinLines ((q.1 ++ '=' :: q.2) ::
            rest2.map (fun r => r.1 ++ '=' :: r.2)) from rfl]
        simp [List.append_assoc]
      rw [hcontent]
      unfold splitlines
      rw [splitlinesGo_line _ hline [] _]
      simp only [List.reverse_nil, List.nil_append, List.map_cons]
      congr 1
      exact ih (by simp) (fun r hr => hent r (List.mem_cons_of_mem p hr))

theorem pyStrip_eq_self (l : List Char)
    (h1 : ∀ c, l.head? = some c → isPySpace c = false)
    (h2 : ∀ c, l.getLast? = some c → isPySpace c = false) :
    pyStrip l = l := by
  have hd : l.dropWhile isPySpace = l := by
    cases l with
    | nil => rfl
    | cons c cs =>
      rw [List.dropWhile_cons, if_neg (by simp [h1 c rfl])]
  have hrev : l.reverse.dropWhile isPySpace = l.reverse := by
    cases hr : l.reverse with
    | nil => rfl
    | cons c cs =>
      have hlast : l.getLast? = some c := by
        rw [← List.head?_reverse, hr]
        rfl
      rw [List.dropWhile_cons, if_neg (by simp [h2 c hlast])]
  unfold pyStrip
  rw [hd, hrev, List.reverse_reverse]

theorem entry_takeWhile (k v : List Char) (hk : ∀ c ∈ k, c ≠ '=') :
    (k ++ '=' :: v).takeWhile (fun c => decide (c ≠ '=')) = k := by
  induction k with
  | nil => simp [List.takeWhile_cons]
  | cons c cs ih =>
    have hc : c ≠ '=' := hk c (List.mem_cons_self c cs)
    simp only [List.cons_append, List.takeWhile_cons]
    rw [if_pos (by simp [hc]), ih (fun d hd => hk d (List.mem_cons_of_mem c hd))]

theorem entry_dropWhile (k v : List Char) (hk : ∀ c ∈ k, c ≠ '=') :
    (k ++ '=' :: v).dropWhile (fun c => decide (c ≠ '=')) = '=' :: v := by
  induction k with
  | nil => simp [List.dropWhile_cons]
  | cons c cs ih =>
    have hc : c ≠ '=' := hk c (List.mem_cons_self c cs)
    simp only [List.cons_append, List.dropWhile_cons]
    rw [if_pos (by simp [hc]), ih (fun d hd => hk d (List.mem_cons_of_mem c hd))]

theorem entry_head? (k v : List Char) (hne : k ≠ []) :
    (k ++ '=' :: v).head? = k.head? := by
  cases k with
  | nil => exact absurd rfl hne
  | cons c cs => rfl

theorem entry_getLast? (k v : List Char) :
    (k ++ '=' :: v).getLast? = ('=' :: v).getLast? := by
  rw [List.getLast?_append_of_ne_nil]
  simp

theorem goodEnvKey_spec (k : List Char) (h : goodEnvKey k = true) :
    k ≠ [] ∧ (∀ c ∈ k, c ≠ '=') ∧ (∀ c ∈ k, isLineBreak c = false) ∧
      (∀ c, k.head? = some c → isPySpace c = false) ∧
      (∀ c, k.getLast? = some c → isPySpace c = false) ∧
      k.head? ≠ some '#' := by
  unfold goodEnvKey noEdgeSpace at h
  rw [Bool.and_eq_true, Bool.and_eq_true, Bool.and_eq_true, Bool.and_eq_true] at h
  obtain ⟨⟨⟨⟨hne, hcont⟩, hall⟩, hedge⟩, hhash⟩ := h
  rw [Bool.and_eq_true] at hedge
  obtain ⟨he1, he2⟩ := hedge
  refine ⟨?_, ?_, ?_, ?_, ?_, ?_⟩
  · intro hnil
    rw [hnil] at hne
    exact absurd hne (by decide)
  · intro c hc hEq
    rw [hEq] at hc
    have hc2 : k.contains '=' = true := List.elem_eq_true_of_mem hc
    rw [hc2] at hcont
    exact absurd hcont (by decide)
  · intro c hc
    rw [List.all_eq_true] at hall
    simpa using hall c hc
  · intro c hc
    rw [hc] at he1
    simpa using he1
  · intro c hc
    rw [hc] at he2
    simpa using he2
  · intro hhead
    rw [hhead] at hhash
    exact absurd hhash (by decide)

theorem goodEnvValue_spec (v : List Char) (h : goodEnvValue v = true) :
    (∀ c ∈ v, isLineBreak c = false) ∧
      (∀ c, v.head? = some c → isPySpace c = false) ∧
      (∀ c, v.getLast? = some c → isPySpace c = false) := by
  unfold goodEnvValue noEdgeSpace at h
  rw [Bool.and_eq_true, Bool.and_eq_true] at h
  obtain ⟨hall, he1, he2⟩ := h
  refine ⟨?_, ?_, ?_⟩
  · intro c hc
    rw [List.all_eq_true] at hall
    simpa using hall c hc
  · intro c hc
    rw [hc] at he1
    simpa using he1
  · intro c hc
    rw [hc] at he2
    simpa using he2

theorem envRead_fold (m : List (List Char × List Char)) :
    (∀ p ∈ m, goodEnvKey p.1 = true) → (∀ p ∈ m, goodEnvValue p.2 = true) →
    (m.map Prod.fst).Nodup →
    ∀ acc, (∀ p ∈ m, hasKey acc p.1 = false) →
      (m.map (fun p => p.1 ++ '=' :: p.2)).foldl envReadLine acc = acc ++ m := by
  induction m with
  | nil => intro _ _ _ acc _; simp
  | cons p rest ih =>
    intro hk hv hnd acc hfresh
    simp only [List.map_cons, List.foldl_cons]
    obtain ⟨hne, hkeq, hkbr, hkhead, hklast, hkhash⟩ :=
      goodEnvKey_spec p.1 (hk p (List.mem_cons_self p rest))
    obtain ⟨hvbr, hvhead, hvlast⟩ :=
      goodEnvValue_spec p.2 (hv p (List.mem_cons_self p rest))
    have hlineHead : ∀ c, (p.1 ++ '=' :: p.2).head? = some c →
        isPySpace c = false := by
      intro c hc
      rw [entry_head? p.1 p.2 hne] at hc
      exact hkhead c hc
    have hlineLast : ∀ c, (p.1 ++ '=' :: p.2).getLast? = some c →
        isPySpace c = false := by
      intro c hc
      rw [entry_getLast? p.1 p.2] at hc
      cases hv2 : p.2 with
      | nil =>
        rw [hv2] at hc
        have hce : c = '=' := by simpa using hc.symm
        rw [hce]
        decide
      | cons d ds =>
        rw [hv2, List.getLast?_cons_cons] at hc
        apply hvlast
        rw [hv2]
        exact hc
    have hstrip : pyStrip (p.1 ++ '=' :: p.2) = p.1 ++ '=' :: p.2 :=
      pyStrip_eq_self _ hlineHead hlineLast
    have hq : hasKey acc p.1 = false := hfresh p (List.mem_cons_self p rest)
    have hstep : envReadLine acc (p.1 ++ '=' :: p.2) = acc ++ [p] := by
      have hne2 : ¬((p.1 ++ '=' :: p.2).isEmpty = true) := by
        cases hk0 : p.1 with
        | nil => exact absurd hk0 hne
        | cons c cs => simp
      have hhash2 : ¬((p.1 ++ '=' :: p.2).head? = some '#') := by
        intro hcontra
        rw [entry_head? p.1 p.2 hne] at hcontra
        exact hkhash hcontra
      have hcont2 : (p.1 ++ '=' :: p.2).contains '=' = true :=
        List.elem_eq_true_of_mem (by simp)
      have hkey2 : pyStrip ((p.1 ++ '=' :: p.2).takeWhile
          (fun c => decide (c ≠ '='))) = p.1 := by
        rw [entry_takeWhile p.1 p.2 hkeq]
        exact pyStrip_eq_self p.1 hkhead hklast
      have hval2 : pyStrip (((p.1 ++ '=' :: p.2).dropWhile
          (fun c => decide (c ≠ '='))).tail) = p.2 := by
        rw [entry_dropWhile p.1 p.2 hkeq]
        exact pyStrip_eq_self p.2 hvhead hvlast
      simp only [envReadLine, hstrip]
      rw [if_neg hne2, if_neg hhash2, if_pos hcont2, hkey2, hval2,
        dictInsert_of_hasKey_false _ hq]
    rw [hstep]
    simp only [List.map_cons, List.nodup_cons] at hnd
    have hfresh2 : ∀ r ∈ rest, hasKey (acc ++ [p]) r.1 = false := by
      intro r hr
      rw [hasKey_append, hfresh r (List.mem_cons_of_mem p hr)]
      have hrp : r.1 ≠ p.1 := fun hEq => hnd.1 (hEq ▸ List.mem_map.2 ⟨r, hr, rfl⟩)
      simp only [Bool.false_or, hasKey, List.any_cons, List.any_nil, Bool.or_false]
      exact decide_eq_false (fun hEq => hrp hEq.symm)
    rw [ih (fun r hr => hk r (List.mem_cons_of_mem p hr))
      (fun r hr => hv r (List.mem_cons_of_mem p hr)) hnd.2 (acc ++ [p]) hfresh2]
    simp [List.append_assoc]

/-- Claim C10: writing a mapping whose keys are non-empty, free of equals
signs, line boundaries and edge whitespace and not starting with the
comment marker, and whose values are free of line boundaries and edge
whitespace, and then reading the file back, returns exactly the original
mapping. -/
theorem env_write_read_round_trip (m : List (List Char × List Char))
    (hk : ∀ p ∈ m, goodEnvKey p.1 = true)
    (hv : ∀ p ∈ m, goodEnvValue p.2 = true)
    (hnd : (m.map Prod.fst).Nodup) :
    envReadContent (envWriteContent m) = m := by
  cases m with
  | nil => rfl
  | cons p rest =>
    have hent : ∀ q ∈ p :: rest, (∀ c ∈ q.1, isLineBreak c = false) ∧
        (∀ c ∈ q.2, isLineBreak c = false) := by
      intro q hq
      obtain ⟨_, _, hkbr, _, _, _⟩ := goodEnvKey_spec q.1 (hk q hq)
      obtain ⟨hvbr, _, _⟩ := goodEnvValue_spec q.2 (hv q hq)
      exact ⟨hkbr, hvbr⟩
    unfold envReadContent
    rw [splitlines_envWrite (p :: rest) (by simp) hent]
    exact envRead_fold (p :: rest) hk hv hnd [] (fun q _ => rfl)

/-- Witness for C10 at a concrete mapping. -/
theorem env_write_read_round_trip_witness :
    (∀ p ∈ cEnvMap, goodEnvKey p.1 = true) ∧
      (∀ p ∈ cEnvMap, goodEnvValue p.2 = true) ∧
      (cEnvMap.map Prod.fst).Nodup ∧
      envReadContent (envWriteContent cEnvMap) = cEnvMap :=
  ⟨by decide, by decide, by decide,
    env_write_read_round_trip cEnvMap (by decide) (by decide) (by decide)⟩
